import Mathlib

/-!
Verification of the event-segmentation pipeline of `nn_gaze_class`
(`filter_behavior.py`, `load_data.py`).

Numeric data (gaze coordinates, timestamps, doses, velocities) is modelled
over `ℚ`.  File-system access and `.mat` parsing performed by the excluded
loader collaborators are modelled as per-session lists of already-obtained
parse outcomes.  Functions of this repository that are not part of the
provided sources (`util`, `defaults`, `fix`) are either modelled from the
spec (`find_islands`, `create_timevec`) or taken as explicit parameters
(`smooth_func`, `px2deg`, `is_fixation`, the saccade-parameter bundle),
exactly at the points where the Python code receives them from those
modules.
-/

/-- Modelled from the spec: `util.find_islands` is absent from the provided
sources.  Section 4.1/8 of the spec define it: all maximal contiguous runs of
`true` in `boolMask` whose length is at least `minLength`, with the stop index
inclusive; a returned `(start, stop)` satisfies `mask[start..stop]` all true,
`start = 0` or `mask[start-1]` false, and `stop = len-1` or `mask[stop+1]`
false.  `minLength` defaults to 1, matching the one-argument call site in
`extract_fixations_with_labels`. -/
def isIsland (m : List Bool) (a b : ℕ) : Bool :=
  decide (a ≤ b) && decide (b < m.length) &&
  ((List.range (b + 1 - a)).all fun k => m.getD (a + k) false) &&
  (decide (a = 0) || !(m.getD (a - 1) true)) &&
  (decide (b = m.length - 1) || !(m.getD (b + 1) true))

def find_islands (m : List Bool) (minLength : ℕ := 1) : List (ℕ × ℕ) :=
  (List.range m.length).flatMap fun a =>
    ((List.range m.length).filter fun b =>
        isIsland m a b && decide (minLength ≤ b + 1 - a)).map fun b => (a, b)

/-- Modelled from the spec: `util.create_timevec` is absent from the provided
sources.  Section 4.1 (`buildTimeVector`) produces `nSamples` increasing
timestamps spaced `1/samplingRate` apart; the run-slicing scenario in
section 8 (time vector `[0,1,2,3,4]` for sampling rate 1) fixes the origin
at 0. -/
def create_timevec (n : ℕ) (sr : ℚ) : List ℚ :=
  (List.range n).map fun i => (i : ℚ) / sr

/-- Python slice `xs[start:stop]` (`stop` exclusive) for nonnegative
indices: out-of-range parts are truncated, an empty range yields `[]`. -/
def pySlice {α : Type} (xs : List α) (start stop : ℕ) : List α :=
  (xs.drop start).take (stop - start)

/-- NumPy boolean-mask indexing `xs[mask]`: keep the entries of `xs` whose
mask entry is `true`. -/
def mask_select {α : Type} (xs : List α) (mask : List Bool) : List α :=
  (xs.zip mask).filterMap fun zb => if zb.2 then some zb.1 else none

/-- NumPy's `np.gradient` with unit spacing on a 1-D array of length ≥ 2:
one-sided differences at the two ends, central differences (divided by 2)
in the interior.  (NumPy raises for arrays of fewer than two elements; the
caller below guards that case.) -/
def np_gradient (a : List ℚ) : List ℚ :=
  (List.range a.length).map fun i =>
    if i = 0 then a.getD 1 0 - a.getD 0 0
    else if i = a.length - 1 then a.getD i 0 - a.getD (i - 1) 0
    else (a.getD (i + 1) 0 - a.getD (i - 1) 0) / 2

/-- Decidable rendering, over `ℚ`, of the comparison
`lo ≤ sqrt (vx² + vy²) ∧ sqrt (vx² + vy²) ≤ hi` performed in
`find_saccades` (`vel_norm = np.sqrt(vx**2 + vy**2)` followed by
`(vel_norm >= vel_thresh[0]) & (vel_norm <= vel_thresh[1])`).  The
equivalence with the real square root is proved in `in_band_iff_sqrt`
below. -/
def in_band (vx vy lo hi : ℚ) : Bool :=
  (decide (lo ≤ 0) || decide (lo ^ 2 ≤ vx ^ 2 + vy ^ 2)) &&
  (decide (0 ≤ hi) && decide (vx ^ 2 + vy ^ 2 ≤ hi ^ 2))

inductive SaccadeError : Type
  | shapeMismatch
  | gradientTooSmall
deriving DecidableEq, Repr

/-- `find_saccades` from `filter_behavior.py` (lines 166-188).  The
`assert x.shape == y.shape` is modelled as the `shapeMismatch` error; the
`ValueError` NumPy raises when `np.gradient` is applied to an array of
fewer than two samples is modelled as the `gradientTooSmall` error. -/
def find_saccades (x y : List ℚ) (sr : ℚ) (vel_thresh : ℚ × ℚ)
    (min_samples : ℕ) (smooth_func : List ℚ → List ℚ) :
    Except SaccadeError (List (ℕ × ℕ)) :=
  if x.length ≠ y.length then .error .shapeMismatch
  else
    let x0 := smooth_func x
    let y0 := smooth_func y
    if x0.length < 2 ∨ y0.length < 2 then .error .gradientTooSmall
    else
      let vx := (np_gradient x0).map (· / sr)
      let vy := (np_gradient y0).map (· / sr)
      let above_thresh :=
        List.zipWith (fun a b => in_band a b vel_thresh.1 vel_thresh.2) vx vy
      .ok (find_islands above_thresh min_samples)

/-- `extract_saccade_positions` from `filter_behavior.py` (lines 190-195):
`run_positions[start:stop+1, :]` for each `(start, stop)` pair. -/
def extract_saccade_positions (run_positions : List (ℚ × ℚ))
    (saccade_start_stops : List (ℕ × ℕ)) : List (List (ℚ × ℚ)) :=
  saccade_start_stops.map fun se => pySlice run_positions se.1 (se.2 + 1)

/-- The per-session metadata dictionary carried alongside the gaze positions
in `labelled_gaze_positions`: the fields written by `extract_meta_info` that
the saccade/fixation extraction reads, plus `sampling_rate` and `category`,
which `extract_labelled_gaze_positions_m1` (lines 157-158) adds before the
pair reaches the extractors.  Following the spec's own design note (§9), the
incrementally-populated dict is modelled as a record; no other key is ever
written in this repository (in particular no key named `session`). -/
structure SessionInfo : Type where
  session_name : String
  sampling_rate : ℚ
  category : ℚ
  num_runs : ℕ
  startS : List ℚ
  stopS : List ℚ
deriving DecidableEq, Repr

/-- One element of `labelled_gaze_positions`: a (positions, metadata) pair. -/
def Session : Type := List (ℚ × ℚ) × SessionInfo

/-- A saccade event: a contiguous slice of run-local pixel positions. -/
def Saccade : Type := List (ℚ × ℚ)

/-- A label tuple `[category, session_identifier, run]`
(`filter_behavior.py` line 227). -/
def Label : Type := ℚ × ℕ × ℕ

/-- The boolean run mask `(time_vec > run_start) & (time_vec <= run_stop)`
of `filter_behavior.py` line 218: elementwise conjunction of the two
comparison masks. -/
def run_mask (time_vec : List ℚ) (run_start run_stop : ℚ) : List Bool :=
  List.zipWith (fun p q => p && q)
    (time_vec.map fun t => decide (run_start < t))
    (time_vec.map fun t => decide (t ≤ run_stop))

/-- The body of the `for run in range(n_runs)` loop of
`extract_saccades_with_labels` (lines 215-227): select the run's samples,
convert to degrees, detect saccades, slice the unconverted run positions and
build the replicated label tuples.  `px2deg` is `util.px2deg` (absent from
the provided sources; the spec's `pixelsToDegrees` is a fixed unspecified
calibration transform, so it is taken as a parameter). -/
def process_run (vel_thresh : ℚ × ℚ) (min_samples : ℕ)
    (smooth_func : List ℚ → List ℚ) (px2deg : ℚ → ℚ)
    (positions : List (ℚ × ℚ)) (time_vec : List ℚ) (sampling_rate : ℚ)
    (category : ℚ) (session_id run : ℕ) (run_start run_stop : ℚ) :
    Except SaccadeError (List Saccade × List Label) := do
  let run_positions := mask_select positions (run_mask time_vec run_start run_stop)
  let run_x := run_positions.map fun p => px2deg p.1
  let run_y := run_positions.map fun p => px2deg p.2
  let saccade_start_stops ←
    find_saccades run_x run_y sampling_rate vel_thresh min_samples smooth_func
  let saccades_in_run := extract_saccade_positions run_positions saccade_start_stops
  .ok (saccades_in_run,
       List.replicate saccades_in_run.length (category, session_id, run))

/-- The run loop of `extract_saccades_with_labels`, iterating over the given
run indices and concatenating the per-run saccades and labels (the
`saccades.extend` / `saccade_labels.extend` accumulation). -/
def process_runs (vel_thresh : ℚ × ℚ) (min_samples : ℕ)
    (smooth_func : List ℚ → List ℚ) (px2deg : ℚ → ℚ)
    (positions : List (ℚ × ℚ)) (time_vec : List ℚ) (info : SessionInfo)
    (session_id : ℕ) : List ℕ → Except SaccadeError (List Saccade × List Label)
  | [] => .ok ([], [])
  | run :: rest => do
    let (s1, l1) ← process_run vel_thresh min_samples smooth_func px2deg
      positions time_vec info.sampling_rate info.category session_id run
      (info.startS.getD run 0) (info.stopS.getD run 0)
    let (s2, l2) ← process_runs vel_thresh min_samples smooth_func px2deg
      positions time_vec info session_id rest
    .ok (s1 ++ s2, l1 ++ l2)

/-- One session's iteration of `extract_saccades_with_labels` (lines
208-227): build the time vector from the sample count and sampling rate,
then run every run in `range n_runs`. -/
def process_session (vel_thresh : ℚ × ℚ) (min_samples : ℕ)
    (smooth_func : List ℚ → List ℚ) (px2deg : ℚ → ℚ)
    (session_id : ℕ) (session : Session) :
    Except SaccadeError (List Saccade × List Label) :=
  process_runs vel_thresh min_samples smooth_func px2deg session.1
    (create_timevec session.1.length session.2.sampling_rate) session.2
    session_id (List.range session.2.num_runs)

/-- The session loop of `extract_saccades_with_labels`: `session_identifier`
starts at 0 and is incremented at the top of each iteration, so the session
processed while the counter holds `n` is handled with identifier `n + 1`. -/
def extract_go (vel_thresh : ℚ × ℚ) (min_samples : ℕ)
    (smooth_func : List ℚ → List ℚ) (px2deg : ℚ → ℚ) :
    ℕ → List Session → Except SaccadeError (List Saccade × List Label)
  | _, [] => .ok ([], [])
  | session_id, session :: rest => do
    let (s1, l1) ← process_session vel_thresh min_samples smooth_func px2deg
      (session_id + 1) session
    let (s2, l2) ← extract_go vel_thresh min_samples smooth_func px2deg
      (session_id + 1) rest
    .ok (s1 ++ s2, l1 ++ l2)

/-- `extract_saccades_with_labels` from `filter_behavior.py` (lines 198-229).
The saccade-parameter bundle `defaults.fetch_default_saccade_pars()`
(`vel_thresh`, `min_samples`, `smooth_func`) comes from the `defaults`
module, absent from the provided sources, and is therefore a parameter, as
is `util.px2deg`. -/
def extract_saccades_with_labels (vel_thresh : ℚ × ℚ) (min_samples : ℕ)
    (smooth_func : List ℚ → List ℚ) (px2deg : ℚ → ℚ)
    (labelled_gaze_positions : List Session) :
    Except SaccadeError (List Saccade × List Label) :=
  extract_go vel_thresh min_samples smooth_func px2deg 0 labelled_gaze_positions

/-- Restatement of the labelling scheme in the spec's words (§4.5): the
sessions are enumerated in processing order and the session processed at
0-based position `i` contributes its labels with the 1-based ordinal
`i + 1`; per run, one label tuple per detected saccade. -/
def labels_per_spec (vel_thresh : ℚ × ℚ) (min_samples : ℕ)
    (smooth_func : List ℚ → List ℚ) (px2deg : ℚ → ℚ)
    (labelled_gaze_positions : List Session) :
    Except SaccadeError (List Label) :=
  (labelled_gaze_positions.enum.mapM fun p =>
    (process_session vel_thresh min_samples smooth_func px2deg (p.1 + 1) p.2).map
      Prod.snd).map List.flatten

/-- Lexicographic comparison of dose rows, the row order produced by
`np.unique(..., axis=0)`. -/
def doseLexLe (a b : ℚ × ℚ) : Prop :=
  a.1 < b.1 ∨ (a.1 = b.1 ∧ a.2 ≤ b.2)

instance : DecidableRel doseLexLe := fun a b => by
  unfold doseLexLe; infer_instance

/-- `np.unique(otnal_doses, axis=0)`: the distinct rows of the input, in
lexicographically sorted order.  Dose values are modelled as exact rationals
(`scipy` hands back floats; the sessions' dose fields are plain numbers). -/
def unique_rows (otnal_doses : List (ℚ × ℚ)) : List (ℚ × ℚ) :=
  otnal_doses.dedup.insertionSort doseLexLe

/-- `np.where((otnal_doses == row).all(axis=1))[0]`: the input row indices
whose row equals `row`, in increasing order. -/
def indices_for_row (otnal_doses : List (ℚ × ℚ)) (row : ℚ × ℚ) : List ℕ :=
  (List.range otnal_doses.length).filter fun j =>
    decide (otnal_doses.getD j (0, 0) = row)

/-- `session_category[indices_for_row] = category`: elementwise assignment
into the category vector.  The vector starts as `np.empty(...)` filled with
`np.nan`, modelled as a vector of `Option ℕ` initialised to `none`. -/
def assign_category (cat : List (Option ℕ)) (p : ℕ × List ℕ) : List (Option ℕ) :=
  p.2.foldl (fun acc j => acc.set j (some p.1)) cat

/-- `get_unique_doses` from `filter_behavior.py` (lines 99-120): the unique
rows, the per-unique-row index buckets, and the per-session category vector
filled in by the loop over the enumerated unique rows. -/
def get_unique_doses (otnal_doses : List (ℚ × ℚ)) :
    List (ℚ × ℚ) × List (List ℕ) × List (Option ℕ) :=
  let ur := unique_rows otnal_doses
  let indices_for_unique_rows := ur.map (indices_for_row otnal_doses)
  let session_category :=
    indices_for_unique_rows.enum.foldl assign_category
      (List.replicate otnal_doses.length (none : Option ℕ))
  (ur, indices_for_unique_rows, session_category)

/-! ### Meta-information extraction (`extract_meta_info`, lines 22-95)

The file system and `scipy.io.loadmat` are outside the program: a session
directory is modelled by the outcomes the loader would hand back.  Each glob
pattern yields a list of candidate files; each candidate carries the result
of loading it: `Except.error ()` when `loadmat` (or the subsequent field
extraction) raises, `Except.ok none` when loading succeeds but the expected
variable (`info` / `runs` / `farPlaneCal`) is absent, and `Except.ok (some d)`
for a well-formed file.  `util.calculate_roi_bounding_boxes` is absent from
the provided sources, so a calibration file's payload is modelled directly
as the four bounding boxes it determines. -/

structure InfoData : Type where
  monkey_1 : String
  monkey_2 : String
  OT_dose : ℚ
  NAL_dose : ℚ
deriving DecidableEq, Repr

/-- One run record: its `startS` and `stopS` times. -/
def RunData : Type := ℚ × ℚ

/-- A rectangle in gaze-space: two corner coordinates. -/
def Bbox : Type := (ℚ × ℚ) × (ℚ × ℚ)

structure CalData : Type where
  eye_bbox : Bbox
  face_bbox : Bbox
  left_obj_bbox : Bbox
  right_obj_bbox : Bbox

/-- A session directory, as seen through the loader. -/
structure LoadedSession : Type where
  session_name : String
  info_files : List (Except Unit (Option InfoData))
  runs_files : List (Except Unit (Option (List RunData)))
  landmark_files : List (Except Unit (Option CalData))

/-- The meta-information dictionary assembled for one session. -/
structure MetaInfo : Type where
  session_name : String
  monkey_1 : Option String
  monkey_2 : Option String
  OT_dose : Option ℚ
  NAL_dose : Option ℚ
  startS : Option (List ℚ)
  stopS : Option (List ℚ)
  num_runs : ℕ
  eye_bbox : Option Bbox
  face_bbox : Option Bbox
  left_obj_bbox : Option Bbox
  right_obj_bbox : Option Bbox

/-- The warnings and error messages `extract_meta_info` prints, tagged with
the session path. -/
inductive MetaWarning : Type
  | noMetaInfo (session : String)
  | errMetaInfo (session : String)
  | noRuns (session : String)
  | errRuns (session : String)
  | noLandmarks (session : String)
  | errLandmarks (session : String)
deriving DecidableEq, Repr

/-- The `metaInfo.mat` branch (lines 37-57).  A singleton glob whose load
raises logs an error; a singleton whose `info` variable is absent raises
`TypeError` at `info[0][0]` inside the `try`, which is caught and logged the
same way; a non-singleton glob logs the warning.  Every failure path
substitutes `None` for all four fields. -/
def meta_info_part (s : LoadedSession) :
    (Option String × Option String × Option ℚ × Option ℚ) × List MetaWarning :=
  match s.info_files with
  | [Except.ok (some d)] =>
    ((some d.monkey_1, some d.monkey_2, some d.OT_dose, some d.NAL_dose), [])
  | [Except.ok none] =>
    ((none, none, none, none), [.errMetaInfo s.session_name])
  | [Except.error _] =>
    ((none, none, none, none), [.errMetaInfo s.session_name])
  | _ => ((none, none, none, none), [.noMetaInfo s.session_name])

/-- The `runs.mat` branch (lines 58-75).  A singleton whose `runs` variable
is absent substitutes `None`/`0` silently (the `else` of `if runs is not
None`); a load that raises logs an error; a non-singleton glob logs the
warning. -/
def runs_part (s : LoadedSession) :
    (Option (List ℚ) × Option (List ℚ) × ℕ) × List MetaWarning :=
  match s.runs_files with
  | [Except.ok (some runs)] =>
    ((some (runs.map Prod.fst), some (runs.map Prod.snd), runs.length), [])
  | [Except.ok none] => ((none, none, 0), [])
  | [Except.error _] => ((none, none, 0), [.errRuns s.session_name])
  | _ => ((none, none, 0), [.noRuns s.session_name])

/-- The `M1_farPlaneCal.mat` branch (lines 76-93), analogous to the runs
branch: absent `farPlaneCal` variable substitutes silently, a raising load
logs an error, a non-singleton glob logs the warning. -/
def landmarks_part (s : LoadedSession) :
    (Option Bbox × Option Bbox × Option Bbox × Option Bbox) × List MetaWarning :=
  match s.landmark_files with
  | [Except.ok (some d)] =>
    ((some d.eye_bbox, some d.face_bbox, some d.left_obj_bbox,
      some d.right_obj_bbox), [])
  | [Except.ok none] => ((none, none, none, none), [])
  | [Except.error _] => ((none, none, none, none), [.errLandmarks s.session_name])
  | _ => ((none, none, none, none), [.noLandmarks s.session_name])

/-- One iteration of the session loop of `extract_meta_info`. -/
def extract_meta_one (s : LoadedSession) : MetaInfo × List MetaWarning :=
  let im := meta_info_part s
  let rm := runs_part s
  let lm := landmarks_part s
  ({ session_name := s.session_name
     monkey_1 := im.1.1, monkey_2 := im.1.2.1
     OT_dose := im.1.2.2.1, NAL_dose := im.1.2.2.2
     startS := rm.1.1, stopS := rm.1.2.1, num_runs := rm.1.2.2
     eye_bbox := lm.1.1, face_bbox := lm.1.2.1
     left_obj_bbox := lm.1.2.2.1, right_obj_bbox := lm.1.2.2.2 },
   im.2 ++ rm.2 ++ lm.2)

/-- `extract_meta_info` from `filter_behavior.py` (lines 22-95): one
meta-information record per session, warnings printed along the way. -/
def extract_meta_info : List LoadedSession → List MetaInfo × List MetaWarning
  | [] => ([], [])
  | s :: rest =>
    let mw := extract_meta_one s
    let rec_rest := extract_meta_info rest
    (mw.1 :: rec_rest.1, mw.2 ++ rec_rest.2)

/-! ### Fixation extraction (`extract_fixations_with_labels`, lines 232-293) -/

inductive FixError : Type
  | keyErrorSession
deriving DecidableEq, Repr

/-- The lookup `info['session']` performed inside the per-interval loop
(line 262).  The metadata dictionaries this repository builds
(`extract_meta_info`, `extract_labelled_gaze_positions_m1`) define
`session_name` but never a key named `session`, so the lookup raises
`KeyError`. -/
def lookup_session_key (_info : SessionInfo) : Except FixError String :=
  .error .keyErrorSession

/-- The fixation mask of one session: `fix.is_fixation(util.px2deg(positions),
time_vec, sampling_rate=sampling_rate)` (line 258).  `fix.is_fixation` is
absent from the provided sources; the spec (§4.3) leaves its threshold rule
to an external collaborator, so it is a parameter mapping degree-converted
positions, the time vector and the sampling rate to a boolean mask. -/
def session_fix_mask (is_fixation : List (ℚ × ℚ) → List ℚ → ℚ → List Bool)
    (px2deg : ℚ → ℚ) (session : Session) : List Bool :=
  is_fixation (session.1.map fun p => (px2deg p.1, px2deg p.2))
    (create_timevec session.1.length session.2.sampling_rate)
    session.2.sampling_rate

/-- The raw fixation intervals of one session:
`util.find_islands(fix_vec_entire_session)` (line 259), with the default
minimum length 1. -/
def session_fixation_indices (is_fixation : List (ℚ × ℚ) → List ℚ → ℚ → List Bool)
    (px2deg : ℚ → ℚ) (session : Session) : List (ℕ × ℕ) :=
  find_islands (session_fix_mask is_fixation px2deg session)

/-- `extract_fixations_with_labels` from `filter_behavior.py` (lines
232-293).  For each session the fixation mask and its islands are computed;
the per-interval loop then evaluates `session = info['session']` (the rest
of its body is comments and an unused string literal), so the first interval
of any session raises `KeyError`.  Nothing is ever accumulated and the
function body ends without a `return`, so a completed pass returns `None`,
modelled as `Except.ok ()`. -/
def extract_fixations_with_labels
    (is_fixation : List (ℚ × ℚ) → List ℚ → ℚ → List Bool)
    (px2deg : ℚ → ℚ) : List Session → Except FixError Unit
  | [] => .ok ()
  | session :: rest => do
    let fixation_indices := session_fixation_indices is_fixation px2deg session
    let _ ← fixation_indices.foldlM
      (fun _ _ => (lookup_session_key session.2).map fun _ => ()) ()
    extract_fixations_with_labels is_fixation px2deg rest

/-- A glob outcome that triggers the warn-and-substitute policy: the file is
missing (no candidate), duplicated (several candidates), or its load raises.
A singleton candidate that loads but lacks the expected variable is not in
this set (the code substitutes silently for runs/landmarks in that case). -/
def is_bad_glob {α : Type} : List (Except Unit (Option α)) → Bool
  | [Except.ok _] => false
  | _ => true

/-- Totality of the lexicographic dose order (used for sortedness of
`np.unique`'s output). -/
instance : IsTotal (ℚ × ℚ) doseLexLe where
  total a b := by
    unfold doseLexLe
    rcases lt_trichotomy a.1 b.1 with h | h | h
    · exact Or.inl (Or.inl h)
    · rcases le_total a.2 b.2 with h2 | h2
      · exact Or.inl (Or.inr ⟨h, h2⟩)
      · exact Or.inr (Or.inr ⟨h.symm, h2⟩)
    · exact Or.inr (Or.inl h)

/-- Transitivity of the lexicographic dose order. -/
instance : IsTrans (ℚ × ℚ) doseLexLe where
  trans a b c hab hbc := by
    unfold doseLexLe at *
    rcases hab with h1 | ⟨h1, h1'⟩ <;> rcases hbc with h2 | ⟨h2, h2'⟩
    · exact Or.inl (h1.trans h2)
    · exact Or.inl (h2 ▸ h1)
    · exact Or.inl (h1 ▸ h2)
    · exact Or.inr ⟨h1.trans h2, h1'.trans h2'⟩

/-! ### Supporting lemmas -/

theorem except_bind_ok {ε α β : Type} (e : Except ε α) (f : α → Except ε β)
    (b : β) : (e >>= f) = .ok b ↔ ∃ a, e = .ok a ∧ f a = .ok b := by
  cases e <;> simp [Bind.bind, Except.bind]

theorem except_map_ok {ε α β : Type} (f : α → β) (e : Except ε α) (b : β) :
    (e.map f) = .ok b ↔ ∃ a, e = .ok a ∧ f a = b := by
  cases e <;> simp [Except.map]

theorem np_gradient_length (a : List ℚ) : (np_gradient a).length = a.length := by
  simp [np_gradient]

/-- `in_band` decides exactly the comparison of the Euclidean velocity norm
`sqrt (vx² + vy²)` against the closed interval `[lo, hi]`. -/
theorem in_band_iff_sqrt (a b lo hi : ℚ) :
    in_band a b lo hi = true ↔
      ((lo : ℝ) ≤ Real.sqrt ((a : ℝ) ^ 2 + (b : ℝ) ^ 2) ∧
       Real.sqrt ((a : ℝ) ^ 2 + (b : ℝ) ^ 2) ≤ (hi : ℝ)) := by
  have hS : (0 : ℝ) ≤ (a : ℝ) ^ 2 + (b : ℝ) ^ 2 := by positivity
  simp only [in_band, Bool.and_eq_true, Bool.or_eq_true, decide_eq_true_eq]
  constructor
  · rintro ⟨hlo, hhi0, hhi⟩
    refine ⟨?_, ?_⟩
    · rcases hlo with h0 | hsq
      · exact le_trans (by exact_mod_cast h0) (Real.sqrt_nonneg _)
      · rcases le_or_lt (lo : ℚ) 0 with h0 | hpos
        · exact le_trans (by exact_mod_cast h0) (Real.sqrt_nonneg _)
        · have hpos' : (0 : ℝ) < (lo : ℝ) := by exact_mod_cast hpos
          rw [Real.le_sqrt hpos'.le hS]
          exact_mod_cast hsq
    · rw [Real.sqrt_le_iff]
      refine ⟨by exact_mod_cast hhi0, by exact_mod_cast hhi⟩
  · rintro ⟨hlo, hhi⟩
    have hhi0 : (0 : ℝ) ≤ (hi : ℝ) := le_trans (Real.sqrt_nonneg _) hhi
    refine ⟨?_, by exact_mod_cast hhi0, ?_⟩
    · rcases le_or_lt lo 0 with h0 | hpos
      · exact Or.inl h0
      · refine Or.inr ?_
        have hpos' : (0 : ℝ) < (lo : ℝ) := by exact_mod_cast hpos
        rw [Real.le_sqrt hpos'.le hS] at hlo
        exact_mod_cast hlo
    · have h2 := (Real.sqrt_le_iff.mp hhi).2
      exact_mod_cast h2

/-- Sanity checks of the modelled primitives on concrete inputs. -/
theorem np_gradient_sample : np_gradient [0, 1, 4] = [1, 2, 3] := by
  norm_num [np_gradient, List.range_succ]

theorem find_islands_sample :
    find_islands [false, true, true, false, true] 1 = [(1, 2), (4, 4)] ∧
    find_islands [true, true, false, true] 2 = [(0, 1)] ∧
    find_islands [] 1 = [] := by
  refine ⟨by decide, by decide, by decide⟩

theorem find_saccades_sample :
    find_saccades [0, 1, 2] [0, 0, 0] 1 (0, 10) 1 id = .ok [(0, 2)] := by
  norm_num [find_saccades, np_gradient, in_band, List.range_succ]
  decide

/-! ### C7: shape mismatch fails fast -/

/-- Claim C7: for every pair of inputs `x` and `y` with differing shapes,
`find_saccades` fails with the shape-mismatch error before performing any
smoothing, gradient or island computation: the error is returned for every
smoothing function, sampling rate, threshold and minimum-sample count, so no
later computation can influence or replace it. -/
theorem find_saccades_shape_mismatch_fails_fast
    (x y : List ℚ) (sr : ℚ) (vel_thresh : ℚ × ℚ) (min_samples : ℕ)
    (smooth_func : List ℚ → List ℚ) (h : x.length ≠ y.length) :
    find_saccades x y sr vel_thresh min_samples smooth_func =
      .error .shapeMismatch := by
  simp [find_saccades, h]

theorem find_saccades_shape_mismatch_fails_fast_witness :
    ([0] : List ℚ).length ≠ ([] : List ℚ).length ∧
      find_saccades [0] [] 1 (0, 1) 1 id = .error .shapeMismatch :=
  ⟨by decide,
   find_saccades_shape_mismatch_fails_fast [0] [] 1 (0, 1) 1 id (by decide)⟩

/-! ### C8: zero-length input -/

/-- Claim C8 counterexample: on zero-length inputs (with the identity
smoothing function, the smoothing used by the spec's own scenario in §8),
`find_saccades` does not return an empty interval list: the gradient
computation rejects arrays of fewer than two samples, so the call fails
rather than returning `[]`. -/
theorem find_saccades_empty_input_errors :
    find_saccades [] [] 1 (0, 1) 1 id = .error .gradientTooSmall := rfl

/-- Claim C8 (amended): for zero-length `x` and `y` inputs and any smoothing
function that preserves emptiness, `find_saccades` raises the
gradient-too-small error (NumPy's `np.gradient` requires at least two
samples) instead of returning an empty list. -/
theorem find_saccades_empty_input_amended
    (sr : ℚ) (vel_thresh : ℚ × ℚ) (min_samples : ℕ)
    (smooth_func : List ℚ → List ℚ) (h : smooth_func [] = []) :
    find_saccades [] [] sr vel_thresh min_samples smooth_func =
      .error .gradientTooSmall := by
  simp [find_saccades, h]

theorem find_saccades_empty_input_amended_witness :
    id ([] : List ℚ) = [] ∧
      find_saccades [] [] 2 (1, 3) 2 id = .error .gradientTooSmall :=
  ⟨rfl, find_saccades_empty_input_amended 2 (1, 3) 2 id rfl⟩

/-! ### C2: the saccade-detection algorithm -/

/-- Claim C2 counterexample: the claim quantifies over every pair of
equal-length sequences, but on a pair of one-sample sequences (equal
lengths, identity smoothing) `find_saccades` does not return the islands of
any marked-sample mask: the gradient computation rejects arrays of fewer
than two samples and the call fails. -/
theorem find_saccades_short_input_errors :
    find_saccades [0] [0] 1 (0, 1) 1 id = .error .gradientTooSmall := rfl

/-- Claim C2 (amended): for every pair of equal-length sequences `x` and `y`
whose smoothed versions have at least two samples each, `find_saccades`
smooths `x` and `y`, takes the discrete gradient of each smoothed sequence
divided by the sampling rate, forms the per-sample Euclidean norm of the two
velocity components, marks exactly the samples whose norm lies within the
closed interval `[lo, hi]` (both endpoints included), and returns the
islands of marked samples of length at least `min_samples`.  (The original
claim quantified over all equal-length inputs; `find_saccades_short_input_errors`
shows that inputs with fewer than two samples fail in the gradient
computation instead.) -/
theorem find_saccades_characterization
    (x y : List ℚ) (sr lo hi : ℚ) (min_samples : ℕ)
    (smooth_func : List ℚ → List ℚ)
    (hxy : x.length = y.length)
    (hx : 2 ≤ (smooth_func x).length) (hy : 2 ≤ (smooth_func y).length) :
    ∃ mask : List Bool,
      find_saccades x y sr (lo, hi) min_samples smooth_func =
        .ok (find_islands mask min_samples) ∧
      mask.length = min (smooth_func x).length (smooth_func y).length ∧
      ∀ i, i < mask.length →
        (mask.getD i false = true ↔
          ((lo : ℝ) ≤
            Real.sqrt ((((np_gradient (smooth_func x)).getD i 0 / sr : ℚ) : ℝ) ^ 2
              + (((np_gradient (smooth_func y)).getD i 0 / sr : ℚ) : ℝ) ^ 2) ∧
           Real.sqrt ((((np_gradient (smooth_func x)).getD i 0 / sr : ℚ) : ℝ) ^ 2
              + (((np_gradient (smooth_func y)).getD i 0 / sr : ℚ) : ℝ) ^ 2)
             ≤ (hi : ℝ))) := by
  refine ⟨List.zipWith (fun a b => in_band a b lo hi)
    ((np_gradient (smooth_func x)).map (· / sr))
    ((np_gradient (smooth_func y)).map (· / sr)), ?_, ?_, ?_⟩
  · have hcond : ¬((smooth_func x).length < 2 ∨ (smooth_func y).length < 2) := by
      omega
    simp only [find_saccades, hxy, ne_eq, not_true_eq_false, if_false]
    rw [if_neg hcond]
  · simp [np_gradient_length]
  · intro i hi'
    have hgx := np_gradient_length (smooth_func x)
    have hgy := np_gradient_length (smooth_func y)
    have hlen := hi'
    simp only [List.length_zipWith, List.length_map] at hlen
    have hxg : i < (np_gradient (smooth_func x)).length := by omega
    have hyg : i < (np_gradient (smooth_func y)).length := by omega
    rw [List.getD_eq_getElem?_getD, List.getElem?_eq_getElem hi',
      List.getElem_zipWith, Option.getD_some,
      List.getD_eq_getElem?_getD, List.getElem?_eq_getElem hxg,
      List.getD_eq_getElem?_getD, List.getElem?_eq_getElem hyg,
      List.getElem_map, List.getElem_map, Option.getD_some, Option.getD_some]
    exact in_band_iff_sqrt _ _ lo hi

theorem find_saccades_characterization_witness :
    ([0, 1, 2] : List ℚ).length = ([0, 0, 0] : List ℚ).length ∧
      2 ≤ (id ([0, 1, 2] : List ℚ)).length ∧
      2 ≤ (id ([0, 0, 0] : List ℚ)).length ∧
      ∃ mask : List Bool,
        find_saccades [0, 1, 2] [0, 0, 0] 1 (0, 10) 1 id =
          .ok (find_islands mask 1) ∧
        mask.length = min (id ([0, 1, 2] : List ℚ)).length
          (id ([0, 0, 0] : List ℚ)).length ∧
        ∀ i, i < mask.length →
          (mask.getD i false = true ↔
            (((0 : ℚ) : ℝ) ≤
              Real.sqrt ((((np_gradient (id [0, 1, 2])).getD i 0 / 1 : ℚ) : ℝ) ^ 2
                + (((np_gradient (id [0, 0, 0])).getD i 0 / 1 : ℚ) : ℝ) ^ 2) ∧
             Real.sqrt ((((np_gradient (id [0, 1, 2])).getD i 0 / 1 : ℚ) : ℝ) ^ 2
                + (((np_gradient (id [0, 0, 0])).getD i 0 / 1 : ℚ) : ℝ) ^ 2)
               ≤ ((10 : ℚ) : ℝ))) :=
  ⟨rfl, by decide, by decide,
   find_saccades_characterization [0, 1, 2] [0, 0, 0] 1 0 10 1 id rfl
     (by decide) (by decide)⟩

/-! ### C1: event/label count invariant -/

theorem process_run_ok_lengths {vel_thresh : ℚ × ℚ} {min_samples : ℕ}
    {smooth_func : List ℚ → List ℚ} {px2deg : ℚ → ℚ}
    {positions : List (ℚ × ℚ)} {time_vec : List ℚ} {sr cat : ℚ}
    {sid run : ℕ} {a b : ℚ} {s : List Saccade} {l : List Label}
    (h : process_run vel_thresh min_samples smooth_func px2deg positions
      time_vec sr cat sid run a b = .ok (s, l)) : s.length = l.length := by
  unfold process_run at h
  rw [except_bind_ok] at h
  obtain ⟨ivs, _, h2⟩ := h
  simp only [Except.ok.injEq, Prod.mk.injEq] at h2
  obtain ⟨hs, hl⟩ := h2
  subst hs hl
  simp

theorem process_runs_ok_lengths {vel_thresh : ℚ × ℚ} {min_samples : ℕ}
    {smooth_func : List ℚ → List ℚ} {px2deg : ℚ → ℚ}
    {positions : List (ℚ × ℚ)} {time_vec : List ℚ} {info : SessionInfo}
    {sid : ℕ} : ∀ {runs : List ℕ} {s : List Saccade} {l : List Label},
    process_runs vel_thresh min_samples smooth_func px2deg positions
      time_vec info sid runs = .ok (s, l) → s.length = l.length := by
  intro runs
  induction runs with
  | nil =>
    intro s l h
    simp only [process_runs, Except.ok.injEq, Prod.mk.injEq] at h
    obtain ⟨hs, hl⟩ := h
    subst hs hl
    rfl
  | cons r rest ih =>
    intro s l h
    unfold process_runs at h
    rw [except_bind_ok] at h
    obtain ⟨⟨s1, l1⟩, h1, h2⟩ := h
    rw [except_bind_ok] at h2
    obtain ⟨⟨s2, l2⟩, h3, h4⟩ := h2
    simp only [Except.ok.injEq, Prod.mk.injEq] at h4
    obtain ⟨hs, hl⟩ := h4
    subst hs hl
    have e1 := process_run_ok_lengths h1
    have e2 := ih h3
    simp [e1, e2]

theorem extract_go_ok_lengths {vel_thresh : ℚ × ℚ} {min_samples : ℕ}
    {smooth_func : List ℚ → List ℚ} {px2deg : ℚ → ℚ} :
    ∀ {sessions : List Session} {sid : ℕ} {s : List Saccade} {l : List Label},
    extract_go vel_thresh min_samples smooth_func px2deg sid sessions =
      .ok (s, l) → s.length = l.length := by
  intro sessions
  induction sessions with
  | nil =>
    intro sid s l h
    simp only [extract_go, Except.ok.injEq, Prod.mk.injEq] at h
    obtain ⟨hs, hl⟩ := h
    subst hs hl
    rfl
  | cons sess rest ih =>
    intro sid s l h
    unfold extract_go at h
    rw [except_bind_ok] at h
    obtain ⟨⟨s1, l1⟩, h1, h2⟩ := h
    rw [except_bind_ok] at h2
    obtain ⟨⟨s2, l2⟩, h3, h4⟩ := h2
    simp only [Except.ok.injEq, Prod.mk.injEq] at h4
    obtain ⟨hs, hl⟩ := h4
    subst hs hl
    have e1 := process_runs_ok_lengths h1
    have e2 := ih h3
    simp [e1, e2]

/-- Claim C1: for every input session list, whenever
`extract_saccades_with_labels` returns, it returns a pair
`(saccades, saccade_labels)` with equally many saccades and labels (the
`assert len(saccades) == len(saccade_labels)` of line 228 always passes);
on the empty session list both collections are empty. -/
theorem extract_saccades_with_labels_length_eq :
    (∀ (vel_thresh : ℚ × ℚ) (min_samples : ℕ)
       (smooth_func : List ℚ → List ℚ) (px2deg : ℚ → ℚ)
       (sessions : List Session) (s : List Saccade) (l : List Label),
       extract_saccades_with_labels vel_thresh min_samples smooth_func px2deg
         sessions = .ok (s, l) → s.length = l.length) ∧
    (∀ (vel_thresh : ℚ × ℚ) (min_samples : ℕ)
       (smooth_func : List ℚ → List ℚ) (px2deg : ℚ → ℚ),
       extract_saccades_with_labels vel_thresh min_samples smooth_func px2deg
         [] = .ok ([], [])) :=
  ⟨fun _ _ _ _ _ _ _ h => extract_go_ok_lengths h, fun _ _ _ _ => rfl⟩

theorem extract_saccades_with_labels_length_eq_witness :
    ∃ s l, extract_saccades_with_labels (0, 1) 1 id id
        [(([(5, 5), (6, 6)] : List (ℚ × ℚ)),
          ⟨"session_a", 1, 0, 0, [], []⟩)] = .ok (s, l) ∧
      s.length = l.length :=
  ⟨[], [], rfl,
   extract_saccades_with_labels_length_eq.1 (0, 1) 1 id id
     [(([(5, 5), (6, 6)] : List (ℚ × ℚ)), ⟨"session_a", 1, 0, 0, [], []⟩)]
     [] [] rfl⟩

/-! ### C5: one label per saccade, 1-based session ordinals -/

theorem extract_go_labels_enumFrom {vel_thresh : ℚ × ℚ} {min_samples : ℕ}
    {smooth_func : List ℚ → List ℚ} {px2deg : ℚ → ℚ} :
    ∀ {sessions : List Session} {n : ℕ} {s : List Saccade} {l : List Label},
    extract_go vel_thresh min_samples smooth_func px2deg n sessions =
      .ok (s, l) →
    ∃ L : List (List Label),
      ((sessions.enumFrom n).mapM fun p =>
        (process_session vel_thresh min_samples smooth_func px2deg (p.1 + 1)
          p.2).map Prod.snd) = .ok L ∧ L.flatten = l := by
  intro sessions
  induction sessions with
  | nil =>
    intro n s l h
    simp only [extract_go, Except.ok.injEq, Prod.mk.injEq] at h
    obtain ⟨_, hl⟩ := h
    subst hl
    exact ⟨[], rfl, rfl⟩
  | cons sess rest ih =>
    intro n s l h
    unfold extract_go at h
    rw [except_bind_ok] at h
    obtain ⟨⟨s1, l1⟩, h1, h2⟩ := h
    rw [except_bind_ok] at h2
    obtain ⟨⟨s2, l2⟩, h3, h4⟩ := h2
    simp only [Except.ok.injEq, Prod.mk.injEq] at h4
    obtain ⟨_, hl⟩ := h4
    subst hl
    obtain ⟨L, hm, hf⟩ := ih h3
    refine ⟨l1 :: L, ?_, by simp [hf]⟩
    rw [List.enumFrom_cons, List.mapM_cons, h1, hm]
    rfl

/-- Claim C5: in `extract_saccades_with_labels`, exactly one label tuple
`(category, sessionOrdinal, runIndex)` is appended per detected saccade
(`process_run` replicates the tuple once per extracted saccade), and
`sessionOrdinal` is the 1-based position of the session in processing
order — the labels of any successful call coincide with `labels_per_spec`,
which enumerates the sessions and labels the session at 0-based position `i`
with ordinal `i + 1`, independently of the dose category field. -/
theorem saccade_labels_session_ordinal :
    (∀ (vel_thresh : ℚ × ℚ) (min_samples : ℕ)
       (smooth_func : List ℚ → List ℚ) (px2deg : ℚ → ℚ)
       (sessions : List Session) (s : List Saccade) (l : List Label),
       extract_saccades_with_labels vel_thresh min_samples smooth_func px2deg
         sessions = .ok (s, l) →
       labels_per_spec vel_thresh min_samples smooth_func px2deg sessions =
         .ok l) ∧
    (∀ (vel_thresh : ℚ × ℚ) (min_samples : ℕ)
       (smooth_func : List ℚ → List ℚ) (px2deg : ℚ → ℚ)
       (positions : List (ℚ × ℚ)) (time_vec : List ℚ) (sr cat : ℚ)
       (sid run : ℕ) (a b : ℚ) (evs : List Saccade) (lbls : List Label),
       process_run vel_thresh min_samples smooth_func px2deg positions
         time_vec sr cat sid run a b = .ok (evs, lbls) →
       lbls = List.replicate evs.length (cat, sid, run)) := by
  constructor
  · intro vel_thresh min_samples smooth_func px2deg sessions s l h
    obtain ⟨L, hm, hf⟩ := extract_go_labels_enumFrom h
    unfold labels_per_spec List.enum
    rw [hm]
    subst hf
    rfl
  · intro vel_thresh min_samples smooth_func px2deg positions time_vec sr cat
      sid run a b evs lbls h
    unfold process_run at h
    rw [except_bind_ok] at h
    obtain ⟨ivs, _, h2⟩ := h
    simp only [Except.ok.injEq, Prod.mk.injEq] at h2
    obtain ⟨hs, hl⟩ := h2
    subst hs hl
    rfl

theorem saccade_labels_session_ordinal_witness :
    ∃ s l, extract_saccades_with_labels (0, 1) 1 id id
        [(([(5, 5)] : List (ℚ × ℚ)), ⟨"session_b", 1, 2, 0, [], []⟩)] =
          .ok (s, l) ∧
      labels_per_spec (0, 1) 1 id id
        [(([(5, 5)] : List (ℚ × ℚ)), ⟨"session_b", 1, 2, 0, [], []⟩)] =
          .ok l :=
  ⟨[], [], rfl,
   saccade_labels_session_ordinal.1 (0, 1) 1 id id
     [(([(5, 5)] : List (ℚ × ℚ)), ⟨"session_b", 1, 2, 0, [], []⟩)] [] [] rfl⟩

/-! ### C4: left-exclusive, right-inclusive run slicing -/

/-- Claim C4: in `extract_saccades_with_labels` a run selects exactly the
samples whose timestamp `t` satisfies `runStart < t ∧ t ≤ runStop`
(left-exclusive, right-inclusive): the boolean-mask selection over
`run_mask` equals the filter by that predicate, and in the spec's scenario
(time vector `[0,1,2,3,4]`, `runStart = 1`, `runStop = 3`) exactly the
samples at indices 2 and 3 are selected. -/
theorem run_slicing_exclusive_inclusive :
    (∀ {α : Type} (ps : List α) (tv : List ℚ) (a b : ℚ),
       ps.length = tv.length →
       mask_select ps (run_mask tv a b) =
         ((ps.zip tv).filter fun z => decide (a < z.2 ∧ z.2 ≤ b)).map
           Prod.fst) ∧
    create_timevec 5 1 = [0, 1, 2, 3, 4] ∧
    mask_select [0, 1, 2, 3, 4]
      (run_mask (create_timevec 5 1) 1 3) = ([2, 3] : List ℕ) := by
  have htv : create_timevec 5 1 = [0, 1, 2, 3, 4] := by
    norm_num [create_timevec, List.range_succ]
  have hgen : ∀ {α : Type} (ps : List α) (tv : List ℚ) (a b : ℚ),
      ps.length = tv.length →
      mask_select ps (run_mask tv a b) =
        ((ps.zip tv).filter fun z => decide (a < z.2 ∧ z.2 ≤ b)).map
          Prod.fst := by
    intro α ps
    induction ps with
    | nil => intro tv a b _; simp [mask_select, run_mask]
    | cons p ps ih =>
      intro tv a b h
      cases tv with
      | nil => simp at h
      | cons t tv' =>
        have h' : ps.length = tv'.length := by simpa using h
        have hrec := ih tv' a b h'
        simp only [mask_select, run_mask, List.map_cons,
          List.zipWith_cons_cons, List.zip_cons_cons, List.filterMap_cons,
          List.filter_cons, Bool.decide_and] at hrec ⊢
        by_cases h1 : a < t <;> by_cases h2 : t ≤ b <;> simp_all
        all_goals first
          | simp only [if_neg (not_lt.mpr h1)]
          | simp only [if_neg (not_le.mpr h2)]
          | simp only [if_neg
              (show ¬(a < t ∧ t ≤ b) from fun hc => absurd hc.1 (not_lt.mpr h1))]
  refine ⟨hgen, htv, ?_⟩
  rw [htv]
  decide

theorem run_slicing_exclusive_inclusive_witness :
    (([10, 20] : List ℚ).length = ([0, 1] : List ℚ).length) ∧
      mask_select ([10, 20] : List ℚ) (run_mask [0, 1] 0 1) =
        ((([10, 20] : List ℚ).zip [0, 1]).filter fun z =>
          decide ((0 : ℚ) < z.2 ∧ z.2 ≤ 1)).map Prod.fst :=
  ⟨rfl, run_slicing_exclusive_inclusive.1 [10, 20] [0, 1] 0 1 rfl⟩

/-! ### C6: saccade positions slice the unsmoothed run positions -/

/-- Claim C6: `extract_saccade_positions` maps each `(start, stop)` pair to
the slice `run_positions[start : stop+1]` — stop index included: for
in-range pairs the slice has `stop - start + 1` entries and its `k`-th entry
is `run_positions[start + k]`.  Inside the run loop, `process_run` applies
it to the unsmoothed, original-units run positions (the boolean-mask
selection of the raw pixel positions), not to the degree-converted smoothed
`x`/`y` arrays, which enter only the interval detection. -/
theorem extract_saccade_positions_slices_unsmoothed :
    (∀ (ps : List (ℚ × ℚ)) (a b k : ℕ), a ≤ b → b < ps.length →
       (pySlice ps a (b + 1)).length = b + 1 - a ∧
       (k ≤ b - a →
         (pySlice ps a (b + 1)).getD k (0, 0) = ps.getD (a + k) (0, 0))) ∧
    (∀ (ps : List (ℚ × ℚ)) (pairs : List (ℕ × ℕ)),
       extract_saccade_positions ps pairs =
         pairs.map fun se => pySlice ps se.1 (se.2 + 1)) ∧
    (∀ (vel_thresh : ℚ × ℚ) (min_samples : ℕ)
       (smooth_func : List ℚ → List ℚ) (px2deg : ℚ → ℚ)
       (positions : List (ℚ × ℚ)) (time_vec : List ℚ) (sr cat : ℚ)
       (sid run : ℕ) (a b : ℚ),
       process_run vel_thresh min_samples smooth_func px2deg positions
         time_vec sr cat sid run a b =
       (find_saccades
          ((mask_select positions (run_mask time_vec a b)).map fun p => px2deg p.1)
          ((mask_select positions (run_mask time_vec a b)).map fun p => px2deg p.2)
          sr vel_thresh min_samples smooth_func).map fun ivs =>
         (extract_saccade_positions (mask_select positions (run_mask time_vec a b)) ivs,
          List.replicate
            (extract_saccade_positions (mask_select positions (run_mask time_vec a b))
              ivs).length (cat, sid, run))) := by
  refine ⟨?_, fun ps pairs => rfl, ?_⟩
  · intro ps a b k hab hb
    have hlen : (pySlice ps a (b + 1)).length = b + 1 - a := by
      simp only [pySlice, List.length_take, List.length_drop]
      omega
    refine ⟨hlen, fun hk => ?_⟩
    rw [List.getD_eq_getElem?_getD, List.getD_eq_getElem?_getD]
    simp only [pySlice, List.getElem?_take, List.getElem?_drop]
    rw [if_pos (by omega)]
  · intro vel_thresh min_samples smooth_func px2deg positions time_vec sr cat
      sid run a b
    cases h : find_saccades
        ((mask_select positions (run_mask time_vec a b)).map fun p => px2deg p.1)
        ((mask_select positions (run_mask time_vec a b)).map fun p => px2deg p.2)
        sr vel_thresh min_samples smooth_func with
    | error e => simp [process_run, h, Except.map, Bind.bind, Except.bind]
    | ok ivs => simp [process_run, h, Except.map, Bind.bind, Except.bind]

theorem extract_saccade_positions_slices_unsmoothed_witness :
    (1 ≤ 2 ∧ 2 < ([(1, 1), (2, 2), (3, 3), (4, 4)] : List (ℚ × ℚ)).length) ∧
      (pySlice ([(1, 1), (2, 2), (3, 3), (4, 4)] : List (ℚ × ℚ)) 1
          (2 + 1)).length = 2 + 1 - 1 ∧
      (1 ≤ 2 - 1 →
        (pySlice ([(1, 1), (2, 2), (3, 3), (4, 4)] : List (ℚ × ℚ)) 1
            (2 + 1)).getD 1 (0, 0) =
          ([(1, 1), (2, 2), (3, 3), (4, 4)] : List (ℚ × ℚ)).getD (1 + 1) (0, 0)) :=
  ⟨⟨by decide, by decide⟩,
   extract_saccade_positions_slices_unsmoothed.1
     [(1, 1), (2, 2), (3, 3), (4, 4)] 1 2 1 (by decide) (by decide)⟩

/-! ### C9: metadata extraction is resilient -/

/-- Claim C9: metadata extraction never aborts the batch: it produces
exactly one record per session, each session's record depends only on that
session's own files, and for every session whose dose, run, or calibration
file is missing, duplicated, or fails to load, the affected fields are
substituted with a well-defined empty value (`None` fields, zero run count)
and a warning is printed, while the remaining sessions are still
processed. -/
theorem extract_meta_info_resilient :
    (∀ ss : List LoadedSession, (extract_meta_info ss).1.length = ss.length) ∧
    (∀ ss : List LoadedSession,
       (extract_meta_info ss).1 = ss.map fun s => (extract_meta_one s).1) ∧
    (∀ s : LoadedSession, is_bad_glob s.info_files = true →
       (extract_meta_one s).1.monkey_1 = none ∧
       (extract_meta_one s).1.monkey_2 = none ∧
       (extract_meta_one s).1.OT_dose = none ∧
       (extract_meta_one s).1.NAL_dose = none ∧
       (MetaWarning.noMetaInfo s.session_name ∈ (extract_meta_one s).2 ∨
        MetaWarning.errMetaInfo s.session_name ∈ (extract_meta_one s).2)) ∧
    (∀ s : LoadedSession, is_bad_glob s.runs_files = true →
       (extract_meta_one s).1.startS = none ∧
       (extract_meta_one s).1.stopS = none ∧
       (extract_meta_one s).1.num_runs = 0 ∧
       (MetaWarning.noRuns s.session_name ∈ (extract_meta_one s).2 ∨
        MetaWarning.errRuns s.session_name ∈ (extract_meta_one s).2)) ∧
    (∀ s : LoadedSession, is_bad_glob s.landmark_files = true →
       (extract_meta_one s).1.eye_bbox = none ∧
       (extract_meta_one s).1.face_bbox = none ∧
       (extract_meta_one s).1.left_obj_bbox = none ∧
       (extract_meta_one s).1.right_obj_bbox = none ∧
       (MetaWarning.noLandmarks s.session_name ∈ (extract_meta_one s).2 ∨
        MetaWarning.errLandmarks s.session_name ∈ (extract_meta_one s).2)) := by
  refine ⟨?_, ?_, ?_, ?_, ?_⟩
  · intro ss
    induction ss with
    | nil => rfl
    | cons s rest ih => simp [extract_meta_info, ih]
  · intro ss
    induction ss with
    | nil => rfl
    | cons s rest ih => simp [extract_meta_info, ih]
  · intro s h
    obtain ⟨name, infos, runs, lands⟩ := s
    rcases infos with _ | ⟨f, rest⟩
    · simp [extract_meta_one, meta_info_part]
    · rcases rest with _ | ⟨g, rest'⟩
      · rcases f with e | o
        · simp [extract_meta_one, meta_info_part]
        · simp [is_bad_glob] at h
      · simp [extract_meta_one, meta_info_part]
  · intro s h
    obtain ⟨name, infos, runs, lands⟩ := s
    rcases runs with _ | ⟨f, rest⟩
    · simp [extract_meta_one, runs_part]
    · rcases rest with _ | ⟨g, rest'⟩
      · rcases f with e | o
        · simp [extract_meta_one, runs_part]
        · simp [is_bad_glob] at h
      · simp [extract_meta_one, runs_part]
  · intro s h
    obtain ⟨name, infos, runs, lands⟩ := s
    rcases lands with _ | ⟨f, rest⟩
    · simp [extract_meta_one, landmarks_part]
    · rcases rest with _ | ⟨g, rest'⟩
      · rcases f with e | o
        · simp [extract_meta_one, landmarks_part]
        · simp [is_bad_glob] at h
      · simp [extract_meta_one, landmarks_part]

theorem extract_meta_info_resilient_witness :
    (is_bad_glob
      ({ session_name := "bad_runs", info_files := [],
         runs_files := [], landmark_files := [] } : LoadedSession).runs_files
      = true) ∧
      (extract_meta_one
        { session_name := "bad_runs", info_files := [],
          runs_files := [], landmark_files := [] }).1.startS = none ∧
      (extract_meta_one
        { session_name := "bad_runs", info_files := [],
          runs_files := [], landmark_files := [] }).1.stopS = none ∧
      (extract_meta_one
        { session_name := "bad_runs", info_files := [],
          runs_files := [], landmark_files := [] }).1.num_runs = 0 ∧
      (MetaWarning.noRuns "bad_runs" ∈
        (extract_meta_one
          { session_name := "bad_runs", info_files := [],
            runs_files := [], landmark_files := [] }).2 ∨
       MetaWarning.errRuns "bad_runs" ∈
        (extract_meta_one
          { session_name := "bad_runs", info_files := [],
            runs_files := [], landmark_files := [] }).2) :=
  ⟨rfl,
   extract_meta_info_resilient.2.2.2.1
     { session_name := "bad_runs", info_files := [],
       runs_files := [], landmark_files := [] } rfl⟩

/-! ### C10: fixation extraction is incomplete -/

/-- Claim C10 counterexample: `extract_fixations_with_labels` does not
return `None` on every input.  With a fixation classifier that marks every
sample (any session with at least one fixation interval suffices), the
per-interval loop executes `session = info['session']` and raises
`KeyError`, because the metadata dictionaries built by this repository
define `session_name` but no key named `session`. -/
theorem extract_fixations_with_labels_keyerror :
    extract_fixations_with_labels (fun ps _ _ => ps.map fun _ => true) id
      [(([(0, 0)] : List (ℚ × ℚ)), ⟨"session_c", 1, 0, 0, [], []⟩)] =
      .error .keyErrorSession := rfl

/-- Claim C10 (amended): `extract_fixations_with_labels` emits no fixation
events and no fixation labels and performs no per-interval labelling
(duration, run/block, ROI) on any input — its result carries no event
collection at all.  It computes the fixation mask and the raw fixation
intervals per session, and returns `None` exactly when no session yields
any fixation interval; otherwise the per-interval loop raises `KeyError`
while reading the absent `session` metadata key. -/
theorem extract_fixations_with_labels_returns_none_iff
    (is_fixation : List (ℚ × ℚ) → List ℚ → ℚ → List Bool)
    (px2deg : ℚ → ℚ) (sessions : List Session) :
    extract_fixations_with_labels is_fixation px2deg sessions = .ok () ↔
      ∀ session ∈ sessions,
        session_fixation_indices is_fixation px2deg session = [] := by
  induction sessions with
  | nil => simp [extract_fixations_with_labels]
  | cons session rest ih =>
    constructor
    · intro h
      unfold extract_fixations_with_labels at h
      rw [except_bind_ok] at h
      obtain ⟨u, h1, h2⟩ := h
      intro sess hmem
      rcases List.mem_cons.mp hmem with heq | hmem'
      · subst heq
        by_contra hne
        rcases hidx : session_fixation_indices is_fixation px2deg sess with
          _ | ⟨iv, ivs⟩
        · exact hne hidx
        · rw [hidx] at h1
          simp [List.foldlM, lookup_session_key, Except.map, Bind.bind,
            Except.bind] at h1
      · exact ih.mp h2 sess hmem'
    · intro h
      unfold extract_fixations_with_labels
      rw [except_bind_ok]
      refine ⟨(), ?_, ih.mpr fun sess hmem => h sess (List.mem_cons_of_mem _ hmem)⟩
      rw [h session (List.mem_cons_self _ _)]
      rfl

theorem extract_fixations_with_labels_returns_none_iff_witness :
    extract_fixations_with_labels (fun ps _ _ => ps.map fun _ => false) id
        [(([(0, 0)] : List (ℚ × ℚ)), ⟨"session_d", 1, 0, 0, [], []⟩)] =
        .ok () ↔
      ∀ session ∈
        [(([(0, 0)] : List (ℚ × ℚ)),
          (⟨"session_d", 1, 0, 0, [], []⟩ : SessionInfo))],
        session_fixation_indices (fun ps _ _ => ps.map fun _ => false) id
          session = [] :=
  extract_fixations_with_labels_returns_none_iff
    (fun ps _ _ => ps.map fun _ => false) id
    [(([(0, 0)] : List (ℚ × ℚ)), ⟨"session_d", 1, 0, 0, [], []⟩)]

/-! ### C3: dose categories form a partition -/

theorem unique_rows_nodup (l : List (ℚ × ℚ)) : (unique_rows l).Nodup :=
  (List.perm_insertionSort doseLexLe l.dedup).symm.nodup (List.nodup_dedup l)

theorem unique_rows_sorted (l : List (ℚ × ℚ)) :
    (unique_rows l).Sorted doseLexLe :=
  List.sorted_insertionSort doseLexLe l.dedup

theorem unique_rows_mem (l : List (ℚ × ℚ)) (r : ℚ × ℚ) :
    r ∈ unique_rows l ↔ r ∈ l := by
  rw [unique_rows, (List.perm_insertionSort doseLexLe l.dedup).mem_iff,
    List.mem_dedup]

theorem mem_indices_for_row (l : List (ℚ × ℚ)) (r : ℚ × ℚ) (j : ℕ) :
    j ∈ indices_for_row l r ↔ j < l.length ∧ l.getD j (0, 0) = r := by
  simp [indices_for_row, List.mem_filter, List.mem_range]

theorem sum_map_ite_zero_of_not_mem {α : Type} [DecidableEq α]
    (u : List α) (x : α) (hx : x ∉ u) :
    (u.map fun r => (if x = r then 1 else 0 : ℕ)).sum = 0 := by
  induction u with
  | nil => rfl
  | cons a u ih =>
    have hxa : x ≠ a := fun h => hx (h ▸ List.mem_cons_self a u)
    have hxu : x ∉ u := fun h => hx (List.mem_cons_of_mem a h)
    simp [hxa, ih hxu]

theorem sum_map_ite_one_of_nodup {α : Type} [DecidableEq α]
    (u : List α) (x : α) (hu : u.Nodup) (hx : x ∈ u) :
    (u.map fun r => (if x = r then 1 else 0 : ℕ)).sum = 1 := by
  induction u with
  | nil => cases hx
  | cons a u ih =>
    rcases List.mem_cons.mp hx with heq | hmem
    · subst heq
      have hxu : x ∉ u := (List.nodup_cons.mp hu).1
      simp [sum_map_ite_zero_of_not_mem u x hxu]
    · have hne : x ≠ a := by
        rintro rfl
        exact (List.nodup_cons.mp hu).1 hmem
      simp [hne, ih (List.nodup_cons.mp hu).2 hmem]

theorem sum_map_add_nat {α : Type} (u : List α) (f g : α → ℕ) :
    (u.map fun r => f r + g r).sum = (u.map f).sum + (u.map g).sum := by
  induction u with
  | nil => rfl
  | cons a u ih => simp [ih]; omega

theorem sum_bucket_lengths {α : Type} [DecidableEq α]
    (u : List α) (g : ℕ → α) :
    ∀ l : List ℕ, u.Nodup → (∀ j ∈ l, g j ∈ u) →
    (u.map fun r => (l.filter fun j => decide (g j = r)).length).sum =
      l.length := by
  intro l
  induction l with
  | nil => intro _ _; simp
  | cons j l ih =>
    intro hu hl
    have hgj : g j ∈ u := hl j (List.mem_cons_self j l)
    have hrest : ∀ j' ∈ l, g j' ∈ u := fun j' h => hl j' (List.mem_cons_of_mem j h)
    have hsplit : (u.map fun r =>
        ((j :: l).filter fun j' => decide (g j' = r)).length) =
        u.map fun r => (if g j = r then 1 else 0) +
          (l.filter fun j' => decide (g j' = r)).length := by
      refine List.map_congr_left fun r _ => ?_
      by_cases h : g j = r
      · simp only [List.filter_cons, h]
        simp
        omega
      · simp [List.filter_cons, h]
    rw [hsplit, sum_map_add_nat, sum_map_ite_one_of_nodup u (g j) hu hgj,
      ih hu hrest]
    simp
    omega

theorem foldl_set_length (v : ℕ) :
    ∀ (l : List ℕ) (c : List (Option ℕ)),
    (l.foldl (fun acc j => acc.set j (some v)) c).length = c.length := by
  intro l
  induction l with
  | nil => intro c; rfl
  | cons j l ih => intro c; rw [List.foldl_cons, ih, List.length_set]

theorem foldl_set_getD_not_mem (v : ℕ) :
    ∀ (l : List ℕ) (c : List (Option ℕ)) (j : ℕ), j ∉ l →
    (l.foldl (fun acc j' => acc.set j' (some v)) c).getD j none =
      c.getD j none := by
  intro l
  induction l with
  | nil => intro c j _; rfl
  | cons j' l ih =>
    intro c j hj
    have hne : j' ≠ j := fun h => hj (h ▸ List.mem_cons_self j' l)
    have hjl : j ∉ l := fun h => hj (List.mem_cons_of_mem j' h)
    rw [List.foldl_cons, ih _ j hjl, List.getD_eq_getElem?_getD,
      List.getElem?_set_ne hne, ← List.getD_eq_getElem?_getD]

theorem foldl_set_getD_mem (v : ℕ) :
    ∀ (l : List ℕ) (c : List (Option ℕ)) (j : ℕ), j ∈ l → j < c.length →
    (l.foldl (fun acc j' => acc.set j' (some v)) c).getD j none = some v := by
  intro l
  induction l with
  | nil => intro c j hj _; cases hj
  | cons j' l ih =>
    intro c j hj hlen
    by_cases hjl : j ∈ l
    · rw [List.foldl_cons]
      exact ih _ j hjl (by rw [List.length_set]; exact hlen)
    · have heq : j' = j := by
        rcases List.mem_cons.mp hj with h | h
        · exact h.symm
        · exact absurd h hjl
      rw [List.foldl_cons, heq, foldl_set_getD_not_mem v l _ j hjl,
        List.getD_eq_getElem?_getD,
        List.getElem?_set_self (by exact hlen), Option.getD_some]

theorem assign_category_length (c : List (Option ℕ)) (p : ℕ × List ℕ) :
    (assign_category c p).length = c.length :=
  foldl_set_length p.1 p.2 c

theorem foldl_assign_length :
    ∀ (L : List (ℕ × List ℕ)) (c : List (Option ℕ)),
    (L.foldl assign_category c).length = c.length := by
  intro L
  induction L with
  | nil => intro c; rfl
  | cons p L ih => intro c; rw [List.foldl_cons, ih, assign_category_length]

theorem foldl_assign_getD_not_mem :
    ∀ (L : List (ℕ × List ℕ)) (c : List (Option ℕ)) (j : ℕ),
    (∀ p ∈ L, j ∉ p.2) →
    (L.foldl assign_category c).getD j none = c.getD j none := by
  intro L
  induction L with
  | nil => intro c j _; rfl
  | cons p L ih =>
    intro c j hj
    rw [List.foldl_cons, ih _ j fun q hq => hj q (List.mem_cons_of_mem p hq)]
    exact foldl_set_getD_not_mem p.1 p.2 c j (hj p (List.mem_cons_self p L))

theorem foldl_assign_getD_mem :
    ∀ (L : List (ℕ × List ℕ)) (c : List (Option ℕ)) (j i : ℕ) (b : List ℕ),
    (i, b) ∈ L → j ∈ b → j < c.length →
    L.Pairwise (fun p q => j ∈ p.2 → j ∉ q.2) →
    (L.foldl assign_category c).getD j none = some i := by
  intro L
  induction L with
  | nil => intro c j i b hib _ _ _; cases hib
  | cons p L ih =>
    intro c j i b hib hjb hlen hpw
    rcases List.mem_cons.mp hib with heq | hmem
    · subst heq
      have hrest : ∀ q ∈ L, j ∉ q.2 :=
        fun q hq => (List.pairwise_cons.mp hpw).1 q hq hjb
      rw [List.foldl_cons, foldl_assign_getD_not_mem L _ j hrest]
      exact foldl_set_getD_mem i b c j hjb hlen
    · rw [List.foldl_cons]
      exact ih _ j i b hmem hjb
        (by rw [assign_category_length]; exact hlen)
        (List.pairwise_cons.mp hpw).2

/-- Claim C3: for every N×2 dose matrix, `get_unique_doses` assigns each
distinct row an integer category id by lexicographic sorted order (the
unique-row list is lexicographically sorted, duplicate-free, and covers
exactly the input rows, so the bucket/category ids `0..K-1` are its
positions, `K` the number of distinct rows, one bucket per unique row);
every input row index appears in exactly one index bucket, the bucket sizes
sum to `N`, and the per-session category vector has no unresolved entries:
entry `j` holds the id of the unique row equal to input row `j`. -/
theorem get_unique_doses_partition (rows : List (ℚ × ℚ)) :
    ((get_unique_doses rows).1.Sorted doseLexLe ∧
     (get_unique_doses rows).1.Nodup ∧
     (∀ r, r ∈ (get_unique_doses rows).1 ↔ r ∈ rows)) ∧
    (get_unique_doses rows).2.1.length = (get_unique_doses rows).1.length ∧
    (∀ j, j < rows.length →
       ∃! i : ℕ, ∃ h : i < (get_unique_doses rows).2.1.length,
         j ∈ (get_unique_doses rows).2.1[i]) ∧
    ((get_unique_doses rows).2.1.map List.length).sum = rows.length ∧
    (get_unique_doses rows).2.2.length = rows.length ∧
    (∀ j, j < rows.length →
       ∃ i, ∃ hi : i < (get_unique_doses rows).1.length,
         (get_unique_doses rows).2.2.getD j none = some i ∧
         rows.getD j (0, 0) = (get_unique_doses rows).1[i]) := by
  have hgud : get_unique_doses rows =
      (unique_rows rows,
       (unique_rows rows).map (indices_for_row rows),
       ((((unique_rows rows).map (indices_for_row rows)).enum).foldl
         assign_category
         (List.replicate rows.length (none : Option ℕ)))) := rfl
  rw [hgud]
  simp only []
  have hnd := unique_rows_nodup rows
  have hmemiff := unique_rows_mem rows
  have hblen : ((unique_rows rows).map (indices_for_row rows)).length =
      (unique_rows rows).length := List.length_map _ _
  have hrowmem : ∀ j, j < rows.length → rows.getD j (0, 0) ∈ unique_rows rows := by
    intro j hj
    rw [hmemiff]
    rw [List.getD_eq_getElem?_getD, List.getElem?_eq_getElem hj,
      Option.getD_some]
    exact List.getElem_mem hj
  refine ⟨⟨unique_rows_sorted rows, hnd, hmemiff⟩, hblen, ?_, ?_, ?_, ?_⟩
  · -- every input index lies in exactly one bucket
    intro j hj
    obtain ⟨i, hi, hEq⟩ := List.mem_iff_getElem.mp (hrowmem j hj)
    refine ⟨i, ⟨by rw [hblen]; exact hi, ?_⟩, ?_⟩
    · rw [List.getElem_map, mem_indices_for_row]
      exact ⟨hj, hEq.symm⟩
    · rintro y ⟨hy, hymem⟩
      have hy' : y < (unique_rows rows).length := by rw [hblen] at hy; exact hy
      rw [List.getElem_map, mem_indices_for_row] at hymem
      have : (unique_rows rows)[y] = (unique_rows rows)[i] := by
        rw [← hymem.2, hEq]
      exact (hnd.getElem_inj_iff).mp this
  · -- bucket sizes sum to N
    have hmap : ((unique_rows rows).map (indices_for_row rows)).map
        List.length = (unique_rows rows).map fun r =>
          ((List.range rows.length).filter fun j =>
            decide (rows.getD j (0, 0) = r)).length := by
      rw [List.map_map]
      rfl
    rw [hmap, sum_bucket_lengths (unique_rows rows)
      (fun j => rows.getD j (0, 0)) (List.range rows.length) hnd
      (fun j hj => hrowmem j (List.mem_range.mp hj))]
    exact List.length_range rows.length
  · -- category vector length
    rw [foldl_assign_length, List.length_replicate]
  · -- category vector fully resolved and consistent
    intro j hj
    obtain ⟨i, hi, hEq⟩ := List.mem_iff_getElem.mp (hrowmem j hj)
    refine ⟨i, hi, ?_, hEq.symm⟩
    have henumlen : ((unique_rows rows).map (indices_for_row rows)).enum.length =
        ((unique_rows rows).map (indices_for_row rows)).length :=
      List.enum_length
    have hpw : (((unique_rows rows).map (indices_for_row rows)).enum).Pairwise
        (fun p q => j ∈ p.2 → j ∉ q.2) := by
      rw [List.pairwise_iff_getElem]
      intro k k' hk hk' hlt hjk hjk'
      have hk2 : k < (unique_rows rows).length := by
        rw [henumlen, hblen] at hk; exact hk
      have hk2' : k' < (unique_rows rows).length := by
        rw [henumlen, hblen] at hk'; exact hk'
      rw [List.getElem_enum] at hjk hjk'
      rw [List.getElem_map, mem_indices_for_row] at hjk
      rw [List.getElem_map, mem_indices_for_row] at hjk'
      have : (unique_rows rows)[k] = (unique_rows rows)[k'] := by
        rw [← hjk.2, ← hjk'.2]
      exact absurd ((hnd.getElem_inj_iff).mp this) (Nat.ne_of_lt hlt)
    refine foldl_assign_getD_mem _ _ j i
      (((unique_rows rows).map (indices_for_row rows)).get
        ⟨i, by simp only [List.length_map]; exact hi⟩) ?_ ?_ ?_ hpw
    · rw [List.mem_enum_iff_getElem?]
      exact List.getElem?_eq_getElem (by simp only [List.length_map]; exact hi)
    · rw [List.get_eq_getElem, List.getElem_map, mem_indices_for_row]
      exact ⟨hj, hEq.symm⟩
    · rw [List.length_replicate]
      exact hj

theorem get_unique_doses_partition_witness :
    (0 < ([(1, 0), (1, 0), (0, 1)] : List (ℚ × ℚ)).length) ∧
      ∃! i : ℕ,
        ∃ h : i < (get_unique_doses
          ([(1, 0), (1, 0), (0, 1)] : List (ℚ × ℚ))).2.1.length,
        0 ∈ (get_unique_doses ([(1, 0), (1, 0), (0, 1)] : List (ℚ × ℚ))).2.1[i] :=
  ⟨by decide,
   (get_unique_doses_partition [(1, 0), (1, 0), (0, 1)]).2.2.1 0 (by decide)⟩
